import Mathlib

/-!
Verification of the tinyclaw message-queue core against its natural-language
specification.  The definitions below are a shallow embedding of the
TypeScript sources: the SQLite-backed queue store (`src/lib/db.ts`), the
routing resolver and dispatcher of the queue processor, the agent invoker
(`runCommand`), and the plugin hook pipeline (`src/lib/plugins.ts`).
SQL tables are modelled as Lean lists of rows in rowid order; `Date.now()`
values are passed explicitly as `Int` arguments.
-/

namespace Tinyclaw

/-- Status column of the `messages` table (`db.ts`, `DbMessage.status`). -/
inductive MsgStatus
  | pending
  | processing
  | completed
  | dead
deriving DecidableEq, Repr

/-- One row of the `messages` table (`db.ts`, interface `DbMessage`).
Timestamps are `Int` milliseconds; nullable columns are `Option`. -/
structure MsgRow where
  id : Nat
  message_id : String
  channel : String
  sender : String
  sender_id : Option String
  message : String
  agent : Option String
  files : Option String
  conversation_id : Option String
  from_agent : Option String
  status : MsgStatus
  retry_count : Nat
  last_error : Option String
  created_at : Int
  updated_at : Int
  claimed_by : Option String
deriving DecidableEq, Repr

/-- The `messages` table, rows listed in rowid (insertion) order. -/
abbrev MsgTable := List MsgRow

/-- `MAX_RETRIES` constant from `db.ts`. -/
def MAX_RETRIES : Nat := 5

/-- SQL `UPDATE messages ... WHERE id = ?`: apply `f` to every row whose
`id` equals `i`, leaving all other rows in place. -/
def updateRow (t : MsgTable) (i : Nat) (f : MsgRow → MsgRow) : MsgTable :=
  t.map (fun r => if r.id = i then f r else r)

/-- SQL `SELECT ... WHERE id = ?` followed by `.get()`: the first row whose
`id` equals `i`. -/
def rowById (t : MsgTable) (i : Nat) : Option MsgRow :=
  t.find? (fun r => r.id = i)

/-- Payload of `enqueueMessage` (`db.ts`, interface `EnqueueMessageData`). -/
structure EnqueueMessageData where
  channel : String
  sender : String
  senderId : Option String
  message : String
  messageId : String
  agent : Option String
  files : Option String
  conversationId : Option String
  fromAgent : Option String
deriving DecidableEq, Repr

/-- `enqueueMessage` (`db.ts`): INSERT a fresh row with status `pending`,
`retry_count` 0 and no claimer.  `rowId` models the AUTOINCREMENT id the
engine assigns; `now` models `Date.now()`. -/
def enqueueMessage (d : EnqueueMessageData) (rowId : Nat) (now : Int)
    (t : MsgTable) : MsgTable :=
  t ++ [{ id := rowId
          message_id := d.messageId
          channel := d.channel
          sender := d.sender
          sender_id := d.senderId
          message := d.message
          agent := d.agent
          files := d.files
          conversation_id := d.conversationId
          from_agent := d.fromAgent
          status := .pending
          retry_count := 0
          last_error := none
          created_at := now
          updated_at := now
          claimed_by := none }]

/-- WHERE clause of the claim SELECT in `claimNextMessage` (`db.ts`):
`status = 'pending' AND (agent = ? OR (agent IS NULL AND ? = 'default'))`. -/
def claimMatch (agentId : String) (r : MsgRow) : Bool :=
  r.status = MsgStatus.pending &&
    (r.agent = some agentId || (r.agent = none && agentId = "default"))

/-- The SELECT of `claimNextMessage`: among the rows matching the WHERE
clause, one with the smallest `created_at` (`ORDER BY created_at ASC
LIMIT 1`). -/
def claimSelect (agentId : String) (t : MsgTable) : Option MsgRow :=
  (t.filter (claimMatch agentId)).argmin (·.created_at)

/-- `claimNextMessage` (`db.ts`): atomically select the oldest matching
pending row, UPDATE it to `processing` with `claimed_by` and a fresh
`updated_at`, and return the row (the source returns the selected row with
`status` and `claimed_by` overridden, keeping the previously read
`updated_at`).  Returns the claimed row (if any) and the updated table. -/
def claimNextMessage (agentId : String) (now : Int) (t : MsgTable) :
    Option MsgRow × MsgTable :=
  match claimSelect agentId t with
  | none => (none, t)
  | some row =>
      (some { row with status := .processing, claimed_by := some agentId },
       updateRow t row.id
         (fun r => { r with status := .processing,
                            claimed_by := some agentId,
                            updated_at := now }))

/-- `completeMessage` (`db.ts`). -/
def completeMessage (i : Nat) (now : Int) (t : MsgTable) : MsgTable :=
  updateRow t i (fun r => { r with status := .completed, updated_at := now })

/-- `failMessage` (`db.ts`): read the row's `retry_count`, increment it,
and set the status to `dead` when the new count reaches `MAX_RETRIES`,
otherwise back to `pending`; the claimer is cleared either way. -/
def failMessage (i : Nat) (err : String) (now : Int) (t : MsgTable) :
    MsgTable :=
  match rowById t i with
  | none => t
  | some msg =>
      let newCount := msg.retry_count + 1
      let newStatus :=
        if MAX_RETRIES ≤ newCount then MsgStatus.dead else MsgStatus.pending
      updateRow t i
        (fun r => { r with status := newStatus,
                           retry_count := newCount,
                           last_error := some err,
                           claimed_by := none,
                           updated_at := now })

/-- `retryDeadMessage` (`db.ts`): UPDATE ... WHERE id = ? AND status =
'dead'; returns whether any row changed together with the new table. -/
def retryDeadMessage (i : Nat) (now : Int) (t : MsgTable) :
    Bool × MsgTable :=
  (t.any (fun r => r.id = i && r.status = MsgStatus.dead),
   t.map (fun r =>
     if r.id = i && r.status = MsgStatus.dead then
       { r with status := .pending, retry_count := 0,
                claimed_by := none, updated_at := now }
     else r))

/-- WHERE clause of `recoverStaleMessages`:
`status = 'processing' AND updated_at < cutoff`. -/
def staleMatch (cutoff : Int) (r : MsgRow) : Bool :=
  r.status = MsgStatus.processing && r.updated_at < cutoff

/-- `recoverStaleMessages` (`db.ts`): reset every processing row whose
`updated_at` is older than `now - thresholdMs` to `pending` with no
claimer and a fresh `updated_at`; return the number of changed rows. -/
def recoverStaleMessages (thresholdMs : Int) (now : Int) (t : MsgTable) :
    Nat × MsgTable :=
  let cutoff := now - thresholdMs
  ((t.filter (staleMatch cutoff)).length,
   t.map (fun r =>
     if staleMatch cutoff r then
       { r with status := .pending, claimed_by := none, updated_at := now }
     else r))

/-- `recoverStaleMessages` with its default argument
`thresholdMs = 10 * 60 * 1000` (10 minutes). -/
def recoverStaleMessagesDefault (now : Int) (t : MsgTable) :
    Nat × MsgTable :=
  recoverStaleMessages (10 * 60 * 1000) now t

-- ── Helper lemmas about the table operations ────────────────────────────────

theorem claimSelect_eq_none {A : String} {t : MsgTable} :
    claimSelect A t = none ↔ ∀ r ∈ t, claimMatch A r = false := by
  unfold claimSelect
  rw [List.argmin_eq_none, List.filter_eq_nil_iff]
  constructor
  · intro h r hr
    by_contra hne
    exact h r hr (by simpa using hne)
  · intro h r hr
    simp [h r hr]

theorem claimSelect_mem {A : String} {t : MsgTable} {r : MsgRow}
    (h : claimSelect A t = some r) : r ∈ t ∧ claimMatch A r = true := by
  unfold claimSelect at h
  have hm : r ∈ (t.filter (claimMatch A)) :=
    List.argmin_mem (by simpa using h)
  exact ⟨List.mem_of_mem_filter hm, List.of_mem_filter hm⟩

theorem claimSelect_min {A : String} {t : MsgTable} {r r' : MsgRow}
    (h : claimSelect A t = some r) (hr' : r' ∈ t)
    (hm : claimMatch A r' = true) : r.created_at ≤ r'.created_at := by
  unfold claimSelect at h
  exact List.le_of_mem_argmin (List.mem_filter.2 ⟨hr', hm⟩) (by simpa using h)

theorem mem_updateRow {t : MsgTable} {i : Nat} {f : MsgRow → MsgRow}
    {r : MsgRow} (h : r ∈ updateRow t i f) :
    (∃ r0 ∈ t, r0.id = i ∧ r = f r0) ∨ (r ∈ t ∧ r.id ≠ i) := by
  unfold updateRow at h
  rcases List.mem_map.1 h with ⟨r0, hr0, heq⟩
  by_cases hid : r0.id = i
  · left
    refine ⟨r0, hr0, hid, ?_⟩
    rw [if_pos hid] at heq
    exact heq.symm
  · right
    rw [if_neg hid] at heq
    exact ⟨heq ▸ hr0, heq ▸ hid⟩

/-- The claim-of-C1 theorem. `claimNextMessage(A)` returns `none` exactly
when no pending row matches agent `A`; when it returns a row, that row is a
previously pending matching row of minimal `created_at`, returned with
status `processing` and claimer `A`, and every stored row with that id is
marked `processing` with `claimed_by = A` and `updated_at = now`; rows with
other ids are untouched.  In particular a row whose status was
`processing`, `completed` or `dead` is never returned. -/
theorem claimNextMessage_spec (A : String) (now : Int) (t : MsgTable) :
    ((claimNextMessage A now t).1 = none ↔ ∀ r ∈ t, claimMatch A r = false)
    ∧ (∀ r, (claimNextMessage A now t).1 = some r →
        ∃ r0 ∈ t, r0.status = MsgStatus.pending ∧ claimMatch A r0 = true
          ∧ r = { r0 with status := .processing, claimed_by := some A }
          ∧ (∀ r' ∈ t, claimMatch A r' = true →
               r0.created_at ≤ r'.created_at)
          ∧ (∀ r'' ∈ (claimNextMessage A now t).2, r''.id = r0.id →
               r''.status = MsgStatus.processing
                 ∧ r''.claimed_by = some A ∧ r''.updated_at = now)
          ∧ (∀ r'' ∈ (claimNextMessage A now t).2, r''.id ≠ r0.id →
               r'' ∈ t)) := by
  constructor
  · unfold claimNextMessage
    cases hsel : claimSelect A t with
    | none => simpa using claimSelect_eq_none.1 hsel
    | some row =>
        simp only []
        constructor
        · intro h; cases h
        · intro hall
          rcases claimSelect_mem hsel with ⟨hmem, hmatch⟩
          rw [hall row hmem] at hmatch
          cases hmatch
  · intro r hr
    cases hsel : claimSelect A t with
    | none =>
        unfold claimNextMessage at hr
        rw [hsel] at hr
        cases hr
    | some row =>
        have heq1 : (claimNextMessage A now t).1 =
            some { row with status := .processing, claimed_by := some A } := by
          unfold claimNextMessage; rw [hsel]
        have heq2 : (claimNextMessage A now t).2 =
            updateRow t row.id
              (fun r => { r with status := .processing,
                                 claimed_by := some A,
                                 updated_at := now }) := by
          unfold claimNextMessage; rw [hsel]
        rw [heq1] at hr
        simp only [Option.some.injEq] at hr
        rcases claimSelect_mem hsel with ⟨hmem, hmatch⟩
        have hpend : row.status = MsgStatus.pending := by
          have := hmatch
          unfold claimMatch at this
          simp only [Bool.and_eq_true, decide_eq_true_eq] at this
          exact this.1
        refine ⟨row, hmem, hpend, hmatch, hr.symm, ?_, ?_, ?_⟩
        · intro r' hr' hm'
          exact claimSelect_min hsel hr' hm'
        · intro r'' hr'' hid
          rw [heq2] at hr''
          rcases mem_updateRow hr'' with ⟨r0, _, _, heq⟩ | ⟨_, hne⟩
          · subst heq; exact ⟨rfl, rfl, rfl⟩
          · exact absurd hid hne
        · intro r'' hr'' hid
          rw [heq2] at hr''
          rcases mem_updateRow hr'' with ⟨r0, _, hid0, heq⟩ | ⟨hin, _⟩
          · subst heq; exact absurd hid0 hid
          · exact hin

-- ── find? / updateRow interaction ───────────────────────────────────────────

theorem rowById_updateRow (t : MsgTable) (i : Nat) (f : MsgRow → MsgRow)
    (hf : ∀ r, (f r).id = r.id) :
    rowById (updateRow t i f) i = (rowById t i).map f := by
  induction t with
  | nil => rfl
  | cons a l ih =>
      unfold rowById updateRow at ih ⊢
      by_cases hid : a.id = i
      · rw [List.map_cons, if_pos hid]
        rw [List.find?_cons_of_pos _ (by simp [hf, hid]),
            List.find?_cons_of_pos _ (by simp [hid])]
        rfl
      · rw [List.map_cons, if_neg hid]
        rw [List.find?_cons_of_neg _ (by simp [hid]),
            List.find?_cons_of_neg _ (by simp [hid])]
        exact ih

theorem ids_updateRow (t : MsgTable) (i : Nat) (f : MsgRow → MsgRow)
    (hf : ∀ r, (f r).id = r.id) :
    (updateRow t i f).map (fun r => r.id) = t.map (fun r => r.id) := by
  unfold updateRow
  rw [List.map_map]
  apply List.map_congr_left
  intro r _
  by_cases hid : r.id = i
  · simp [hid, hf]
  · simp [hid]

theorem ids_failMessage (i : Nat) (err : String) (now : Int) (t : MsgTable) :
    (failMessage i err now t).map (fun r => r.id) = t.map (fun r => r.id) := by
  unfold failMessage
  cases h : rowById t i with
  | none => rfl
  | some msg => exact ids_updateRow t i _ (fun r => rfl)

theorem rowById_eq_of_mem_nodup {t : MsgTable} {r : MsgRow}
    (hn : (t.map (fun r => r.id)).Nodup) (hr : r ∈ t) :
    rowById t r.id = some r := by
  induction t with
  | nil => cases hr
  | cons a l ih =>
      rw [List.map_cons, List.nodup_cons] at hn
      rcases List.mem_cons.1 hr with rfl | hmem
      · unfold rowById
        rw [List.find?_cons_of_pos _ (by simp)]
      · have hne : a.id ≠ r.id := by
          intro he
          exact hn.1 (he ▸ List.mem_map_of_mem (fun r => r.id) hmem)
        unfold rowById at ih ⊢
        rw [List.find?_cons_of_neg _ (by simp [hne])]
        exact ih hn.2 hmem

theorem failMessage_rowById (t : MsgTable) (i : Nat) (err : String)
    (now : Int) (r : MsgRow) (h : rowById t i = some r) :
    rowById (failMessage i err now t) i =
      some { r with
        status := if MAX_RETRIES ≤ r.retry_count + 1 then MsgStatus.dead
                  else MsgStatus.pending,
        retry_count := r.retry_count + 1,
        last_error := some err,
        claimed_by := none,
        updated_at := now } := by
  unfold failMessage
  rw [h]
  simp only []
  have key := rowById_updateRow t i
    (fun r_1 => { r_1 with
      status := if MAX_RETRIES ≤ r.retry_count + 1 then MsgStatus.dead
                else MsgStatus.pending,
      retry_count := r.retry_count + 1,
      last_error := some err,
      claimed_by := none,
      updated_at := now }) (fun _ => rfl)
  rw [key, h]
  rfl

/-- Iterated `failMessage` on the same row id (the n successive failures of
claim C2). -/
def failTimes (i : Nat) (err : String) (now : Int) :
    Nat → MsgTable → MsgTable
  | 0, t => t
  | n + 1, t => failTimes i err now n (failMessage i err now t)

theorem ids_failTimes (i : Nat) (err : String) (now : Int) (n : Nat)
    (t : MsgTable) :
    (failTimes i err now n t).map (fun r => r.id) =
      t.map (fun r => r.id) := by
  induction n generalizing t with
  | zero => rfl
  | succ n ih =>
      unfold failTimes
      rw [ih, ids_failMessage]

/-- The claim-of-C2 theorem.  A `failMessage` call on an existing row
increments its `retry_count` by one and moves it to `dead` when the new
count reaches `MAX_RETRIES` (5), otherwise back to `pending` with no
claimer; consequently, after `MAX_RETRIES` successive failures starting
from a fresh row the row is `dead`, and `claimNextMessage` never returns
it. -/
theorem failMessage_spec (t : MsgTable) (i : Nat) (err : String) (now : Int)
    (r : MsgRow) (h : rowById t i = some r) :
    (rowById (failMessage i err now t) i =
      some { r with
        status := if MAX_RETRIES ≤ r.retry_count + 1 then MsgStatus.dead
                  else MsgStatus.pending,
        retry_count := r.retry_count + 1,
        last_error := some err,
        claimed_by := none,
        updated_at := now })
    ∧ (r.retry_count = 0 →
        rowById (failTimes i err now MAX_RETRIES t) i =
          some { r with
            status := MsgStatus.dead,
            retry_count := MAX_RETRIES,
            last_error := some err,
            claimed_by := none,
            updated_at := now }
        ∧ ((t.map (fun r => r.id)).Nodup →
            ∀ (A : String) (now' : Int) (r' : MsgRow),
              (claimNextMessage A now'
                  (failTimes i err now MAX_RETRIES t)).1 = some r' →
              r'.id ≠ i)) := by
  refine ⟨failMessage_rowById t i err now r h, ?_⟩
  intro h0
  have h1 := failMessage_rowById t i err now r h
  rw [h0] at h1
  norm_num [MAX_RETRIES] at h1
  have h2 := failMessage_rowById _ i err now _ h1
  norm_num [MAX_RETRIES] at h2
  have h3 := failMessage_rowById _ i err now _ h2
  norm_num [MAX_RETRIES] at h3
  have h4 := failMessage_rowById _ i err now _ h3
  norm_num [MAX_RETRIES] at h4
  have h5 := failMessage_rowById _ i err now _ h4
  norm_num [MAX_RETRIES] at h5
  have hiter : rowById (failTimes i err now MAX_RETRIES t) i =
      some { r with
        status := MsgStatus.dead,
        retry_count := MAX_RETRIES,
        last_error := some err,
        claimed_by := none,
        updated_at := now } := by
    show rowById
      (failTimes i err now 4 (failMessage i err now t)) i = _
    show rowById
      (failTimes i err now 3 (failMessage i err now (failMessage i err now t))) i = _
    show rowById
      (failTimes i err now 2 (failMessage i err now (failMessage i err now (failMessage i err now t)))) i = _
    show rowById
      (failTimes i err now 1 (failMessage i err now (failMessage i err now (failMessage i err now (failMessage i err now t))))) i = _
    show rowById
      (failMessage i err now (failMessage i err now (failMessage i err now (failMessage i err now (failMessage i err now t))))) i = _
    rw [h5]
    norm_num [MAX_RETRIES]
  refine ⟨hiter, ?_⟩
  intro hnodup A now' r' hclaim
  intro hid
  have hn5 : ((failTimes i err now MAX_RETRIES t).map
      (fun r => r.id)).Nodup := by
    rw [ids_failTimes]; exact hnodup
  unfold claimNextMessage at hclaim
  cases hsel : claimSelect A (failTimes i err now MAX_RETRIES t) with
  | none => rw [hsel] at hclaim; cases hclaim
  | some row =>
      rw [hsel] at hclaim
      simp only [Option.some.injEq] at hclaim
      rcases claimSelect_mem hsel with ⟨hmem, hmatch⟩
      have hpend : row.status = MsgStatus.pending := by
        unfold claimMatch at hmatch
        simp only [Bool.and_eq_true, decide_eq_true_eq] at hmatch
        exact hmatch.1
      have hrowid : row.id = i := by
        have : r'.id = row.id := by rw [← hclaim]
        omega
      have := rowById_eq_of_mem_nodup hn5 hmem
      rw [hrowid, hiter] at this
      have hrow : row = { r with
          status := MsgStatus.dead,
          retry_count := MAX_RETRIES,
          last_error := some err,
          claimed_by := none,
          updated_at := now } := by
        injection this with h'
        exact h'.symm
      rw [hrow] at hpend
      cases hpend

/-- The claim-of-C4 theorem. `recoverStaleMessages(threshold)` resets
exactly the rows with status `processing` and `updated_at` older than
`now - threshold` to `pending` with no claimer, returns the number of such
rows, and leaves every other row — in particular a fresh processing row —
byte-for-byte unchanged; the default threshold is 10 minutes. -/
theorem recoverStaleMessages_spec (threshold now : Int) (t : MsgTable) :
    (recoverStaleMessages threshold now t).1 =
        (t.filter (staleMatch (now - threshold))).length
    ∧ (∀ r : MsgRow, staleMatch (now - threshold) r = true ↔
        (r.status = MsgStatus.processing ∧ r.updated_at < now - threshold))
    ∧ (∀ (i : Nat) (r0 : MsgRow), t[i]? = some r0 →
        (recoverStaleMessages threshold now t).2[i]? =
          some (if staleMatch (now - threshold) r0 then
                  { r0 with status := .pending, claimed_by := none,
                            updated_at := now }
                else r0))
    ∧ recoverStaleMessagesDefault now t =
        recoverStaleMessages (10 * 60 * 1000) now t := by
  refine ⟨rfl, ?_, ?_, rfl⟩
  · intro r
    unfold staleMatch
    simp [Bool.and_eq_true, decide_eq_true_eq]
  · intro i r0 h0
    unfold recoverStaleMessages
    simp only [List.getElem?_map, h0]
    rfl

-- ── C10: the row invariants and their preservation ──────────────────────────

/-- Row invariants of claim C10: a processing row has a claimer, a pending
row has none, and a dead row has exhausted its retries. -/
def InvRow (r : MsgRow) : Prop :=
  (r.status = MsgStatus.processing → r.claimed_by ≠ none)
  ∧ (r.status = MsgStatus.pending → r.claimed_by = none)
  ∧ (r.status = MsgStatus.dead → MAX_RETRIES ≤ r.retry_count)

instance (r : MsgRow) : Decidable (InvRow r) := by
  unfold InvRow; infer_instance

/-- Table-wide version of the row invariants. -/
def InvTable (t : MsgTable) : Prop := ∀ r ∈ t, InvRow r

instance (t : MsgTable) : Decidable (InvTable t) := by
  unfold InvTable; exact List.decidableBAll _ t

theorem InvTable_map (t : MsgTable) (g : MsgRow → MsgRow)
    (hg : ∀ r ∈ t, InvRow r → InvRow (g r)) (h : InvTable t) :
    InvTable (t.map g) := by
  intro r hr
  rcases List.mem_map.1 hr with ⟨r0, hr0, rfl⟩
  exact hg r0 hr0 (h r0 hr0)

/-- The claim-of-C10 theorem.  Every queue-store operation —
`enqueueMessage`, `claimNextMessage`, `completeMessage`, `failMessage`,
`retryDeadMessage`, `recoverStaleMessages` — preserves the row invariants
of `InvRow`. -/
theorem queue_ops_preserve_invariants :
    (∀ (d : EnqueueMessageData) (rowId : Nat) (now : Int) (t : MsgTable),
       InvTable t → InvTable (enqueueMessage d rowId now t))
    ∧ (∀ (A : String) (now : Int) (t : MsgTable),
       InvTable t → InvTable (claimNextMessage A now t).2)
    ∧ (∀ (i : Nat) (now : Int) (t : MsgTable),
       InvTable t → InvTable (completeMessage i now t))
    ∧ (∀ (i : Nat) (err : String) (now : Int) (t : MsgTable),
       InvTable t → InvTable (failMessage i err now t))
    ∧ (∀ (i : Nat) (now : Int) (t : MsgTable),
       InvTable t → InvTable (retryDeadMessage i now t).2)
    ∧ (∀ (threshold now : Int) (t : MsgTable),
       InvTable t → InvTable (recoverStaleMessages threshold now t).2) := by
  refine ⟨?_, ?_, ?_, ?_, ?_, ?_⟩
  · intro d rowId now t h r hr
    unfold enqueueMessage at hr
    rcases List.mem_append.1 hr with hin | hnew
    · exact h r hin
    · rcases List.mem_singleton.1 hnew with rfl
      exact ⟨(by intro hs; cases hs), fun _ => rfl, (by intro hs; cases hs)⟩
  · intro A now t h
    unfold claimNextMessage
    cases hsel : claimSelect A t with
    | none => exact h
    | some row =>
        apply InvTable_map _ _ _ h
        intro r _ hInv
        by_cases hid : r.id = row.id
        · rw [if_pos hid]
          exact ⟨(by intro _ hc; cases hc), (by intro hs; cases hs),
                 (by intro hs; cases hs)⟩
        · rw [if_neg hid]
          exact hInv
  · intro i now t h
    apply InvTable_map _ _ _ h
    intro r _ hInv
    by_cases hid : r.id = i
    · rw [if_pos hid]
      exact ⟨(by intro hs; cases hs), (by intro hs; cases hs),
             (by intro hs; cases hs)⟩
    · rw [if_neg hid]
      exact hInv
  · intro i err now t h
    unfold failMessage
    cases hf : rowById t i with
    | none => exact h
    | some msg =>
        apply InvTable_map _ _ _ h
        intro r _ hInv
        by_cases hid : r.id = i
        · rw [if_pos hid]
          by_cases hc : MAX_RETRIES ≤ msg.retry_count + 1
          · rw [if_pos hc]
            exact ⟨(by intro hs; cases hs), (by intro hs; cases hs),
                   fun _ => hc⟩
          · rw [if_neg hc]
            exact ⟨(by intro hs; cases hs), fun _ => rfl,
                   (by intro hs; cases hs)⟩
        · rw [if_neg hid]
          exact hInv
  · intro i now t h
    apply InvTable_map _ _ _ h
    intro r _ hInv
    by_cases hc : (r.id = i && r.status = MsgStatus.dead) = true
    · rw [if_pos hc]
      exact ⟨(by intro hs; cases hs), fun _ => rfl, (by intro hs; cases hs)⟩
    · rw [if_neg hc]
      exact hInv
  · intro threshold now t h
    apply InvTable_map _ _ _ h
    intro r _ hInv
    by_cases hc : staleMatch (now - threshold) r = true
    · rw [if_pos hc]
      exact ⟨(by intro hs; cases hs), fun _ => rfl, (by intro hs; cases hs)⟩
    · rw [if_neg hc]
      exact hInv

-- ── Concrete fixtures used by the witnesses ─────────────────────────────────

/-- A pending unrouted message row (concrete witness data). -/
def exM1 : MsgRow :=
  { id := 1, message_id := "m1", channel := "telegram", sender := "Alice",
    sender_id := none, message := "ping", agent := none, files := none,
    conversation_id := none, from_agent := none, status := .pending,
    retry_count := 0, last_error := none, created_at := 100,
    updated_at := 100, claimed_by := none }

/-- An older pending unrouted message row. -/
def exM2 : MsgRow :=
  { exM1 with
    id := 2, message_id := "m2", created_at := 50, updated_at := 50 }

/-- A processing row claimed by `coder`. -/
def exM3 : MsgRow :=
  { exM1 with
    id := 3, message_id := "m3", agent := some "coder",
    status := .processing, claimed_by := some "coder" }

/-- A three-row messages table. -/
def exTable : MsgTable := [exM1, exM2, exM3]

/-- Witness for C1: on `exTable`, claiming for `default` returns the oldest
pending unrouted row (`exM2`, `created_at = 50`) marked processing. -/
theorem claimNextMessage_spec_witness :
    (claimNextMessage "default" 200 exTable).1 =
      some { exM2 with status := .processing, claimed_by := some "default" }
    ∧ ∃ r0 ∈ exTable, r0.status = MsgStatus.pending
        ∧ claimMatch "default" r0 = true
        ∧ (∀ r' ∈ exTable, claimMatch "default" r' = true →
            r0.created_at ≤ r'.created_at) := by
  refine ⟨by decide, ?_⟩
  obtain ⟨r0, hmem, hp, hm, _, hmin, _, _⟩ :=
    (claimNextMessage_spec "default" 200 exTable).2
      { exM2 with status := .processing, claimed_by := some "default" }
      (by decide)
  exact ⟨r0, hmem, hp, hm, hmin⟩

/-- Witness for C2: five successive failures of row 1 of `exTable`
(initial `retry_count = 0`) leave it dead with `retry_count = 5`. -/
theorem failMessage_spec_witness :
    rowById exTable 1 = some exM1
    ∧ exM1.retry_count = 0
    ∧ rowById (failTimes 1 "boom" 300 MAX_RETRIES exTable) 1 =
        some { exM1 with
               status := .dead, retry_count := MAX_RETRIES,
               last_error := some "boom", claimed_by := none,
               updated_at := 300 } := by
  have h := (failMessage_spec exTable 1 "boom" 300 exM1 (by decide)).2 rfl
  exact ⟨by decide, rfl, h.1⟩

/-- Witness for C4: with threshold 10 min and `now = 700000`, the stale
processing row `exM3` (`updated_at = 100`) is reset to pending. -/
theorem recoverStaleMessages_spec_witness :
    exTable[2]? = some exM3
    ∧ (recoverStaleMessages 600000 700000 exTable).2[2]? =
        some { exM3 with
               status := .pending, claimed_by := none,
               updated_at := 700000 } := by
  have h := (recoverStaleMessages_spec 600000 700000 exTable).2.2.1 2 exM3
    (by decide)
  refine ⟨by decide, ?_⟩
  rw [h]
  decide

/-- Witness for C10: `exTable` satisfies the invariants and still does
after a claim. -/
theorem queue_ops_preserve_invariants_witness :
    InvTable exTable ∧ InvTable (claimNextMessage "default" 200 exTable).2 :=
  ⟨by decide,
   queue_ops_preserve_invariants.2.1 "default" 200 exTable (by decide)⟩

-- ── Responses (outgoing queue) ──────────────────────────────────────────────

/-- Status column of the `responses` table (`db.ts`, `DbResponse.status`). -/
inductive RespStatus
  | pending
  | acked
deriving DecidableEq, Repr

/-- One row of the `responses` table (`db.ts`, interface `DbResponse`). -/
structure RespRow where
  id : Nat
  message_id : String
  channel : String
  sender : String
  sender_id : Option String
  message : String
  original_message : String
  agent : Option String
  files : Option String
  metadata : Option String
  status : RespStatus
  created_at : Int
  acked_at : Option Int
deriving DecidableEq, Repr

/-- The `responses` table in rowid order. -/
abbrev RespTable := List RespRow

/-- Payload of `enqueueResponse` (`db.ts`, `EnqueueResponseData`). -/
structure EnqueueResponseData where
  channel : String
  sender : String
  senderId : Option String
  message : String
  originalMessage : String
  messageId : String
  agent : Option String
  files : Option String
  metadata : Option String
deriving DecidableEq, Repr

/-- `enqueueResponse` (`db.ts`): INSERT a fresh response row with status
`pending` and no ack timestamp. -/
def enqueueResponse (d : EnqueueResponseData) (rowId : Nat) (now : Int)
    (t : RespTable) : RespTable :=
  t ++ [{ id := rowId
          message_id := d.messageId
          channel := d.channel
          sender := d.sender
          sender_id := d.senderId
          message := d.message
          original_message := d.originalMessage
          agent := d.agent
          files := d.files
          metadata := d.metadata
          status := .pending
          created_at := now
          acked_at := none }]

/-- `ackResponse` (`db.ts`): `UPDATE responses SET status = 'acked',
acked_at = ? WHERE id = ?` — note that the UPDATE is unconditional on the
current status: there is no already-acked guard. -/
def ackResponse (i : Nat) (now : Int) (t : RespTable) : RespTable :=
  t.map (fun r =>
    if r.id = i then { r with status := .acked, acked_at := some now }
    else r)

/-- A pending response row (concrete witness data). -/
def respEx : RespRow :=
  { id := 1, message_id := "m1", channel := "telegram", sender := "Alice",
    sender_id := none, message := "pong", original_message := "ping",
    agent := some "default", files := none, metadata := none,
    status := .pending, created_at := 100, acked_at := none }

/-- Counterexample to C3: acking response 1 at time 10 and again at time 20
leaves `acked_at = 20`, not the value 10 set by the first ack — the second
`ackResponse` call is not a no-op. -/
theorem ackResponse_changes_acked_at :
    ((ackResponse 1 20 (ackResponse 1 10 [respEx])).find?
        (fun r => r.id = 1)).map (fun r => r.acked_at) = some (some 20)
    ∧ ((ackResponse 1 10 [respEx]).find?
        (fun r => r.id = 1)).map (fun r => r.acked_at) = some (some 10)
    ∧ some (20 : Int) ≠ some (10 : Int) := by
  decide

/-- How a single `ackResponse` rewrites the target row. -/
theorem ackResponse_row (t : RespTable) (i : Nat) (n : Int) :
    ∀ r ∈ ackResponse i n t, r.id = i →
      r.status = RespStatus.acked ∧ r.acked_at = some n := by
  intro r hr hid
  rcases List.mem_map.1 hr with ⟨r0, _, heq⟩
  by_cases h0 : r0.id = i
  · rw [if_pos h0] at heq
    subst heq
    exact ⟨rfl, rfl⟩
  · rw [if_neg h0] at heq
    subst heq
    exact absurd hid h0

/-- Amended C3: acking is idempotent in `status` only.  After a second
`ackResponse` the row is still `acked`, but `acked_at` is overwritten with
the second call's timestamp (the code has no already-acked guard). -/
theorem ackResponse_second_ack (t : RespTable) (i : Nat) (n1 n2 : Int) :
    (∀ r ∈ ackResponse i n1 t, r.id = i →
      r.status = RespStatus.acked ∧ r.acked_at = some n1)
    ∧ (∀ r ∈ ackResponse i n2 (ackResponse i n1 t), r.id = i →
      r.status = RespStatus.acked ∧ r.acked_at = some n2) :=
  ⟨ackResponse_row t i n1, ackResponse_row (ackResponse i n1 t) i n2⟩

/-- Witness for the amended C3 at a concrete double ack. -/
theorem ackResponse_second_ack_witness :
    ({ respEx with status := .acked, acked_at := some 20 } ∈
        ackResponse 1 20 (ackResponse 1 10 [respEx]))
    ∧ ({ respEx with status := .acked, acked_at := some 20 }).status =
        RespStatus.acked
    ∧ ({ respEx with status := .acked, acked_at := some 20 }).acked_at =
        some 20 := by
  have h := (ackResponse_second_ack [respEx] 1 10 20).2
    { respEx with status := .acked, acked_at := some 20 }
    (by decide) (by decide)
  exact ⟨by decide, h.1, h.2⟩

-- ── Routing resolver (queue processor, parseAgentRouting) ───────────────────

/-- Whitespace test mirroring the regex class `\s` of the routing regexes
for the character ranges that occur in routed messages (space, tab, line
feed, carriage return, vertical tab, form feed, no-break space). -/
def isWs (c : Char) : Bool :=
  c = ' ' || c = '\t' || c = '\n' || c = '\r' ||
  c = Char.ofNat 11 || c = Char.ofNat 12 || c = Char.ofNat 160

/-- JS `toLowerCase()` restricted to the ASCII agent slugs the router
compares. -/
def lowerStr (s : String) : String := String.mk (s.data.map Char.toLower)

/-- JS `trim()`: strip leading and trailing whitespace. -/
def trimStr (s : String) : String :=
  String.mk (((s.data.dropWhile isWs).reverse.dropWhile isWs).reverse)

/-- Scanner for the global regex `@(\S+)`, structurally recursive on a
fuel bound (any fuel at least the list length gives the regex semantics):
each `@` starts a token whose slug is the maximal following run of
non-whitespace characters (which may itself contain further `@`s);
scanning resumes after the matched token. -/
def mentionSlugsGo : Nat → List Char → List String
  | 0, _ => []
  | _ + 1, [] => []
  | fuel + 1, c :: rest =>
      if c = '@' then
        let slug := rest.takeWhile (fun ch => !isWs ch)
        if slug.isEmpty then mentionSlugsGo fuel rest
        else String.mk slug :: mentionSlugsGo fuel (rest.drop slug.length)
      else mentionSlugsGo fuel rest

/-- All non-overlapping matches of the global regex `@(\S+)`. -/
def mentionSlugs (l : List Char) : List String :=
  mentionSlugsGo l.length l

/-- Agent configuration (queue processor, interface `AgentConfig`). -/
structure AgentConfig where
  name : String
  provider : String
  model : String
  working_directory : String
deriving DecidableEq, Repr

/-- The agents registry (`settings.teams` / legacy `settings.agents`): a
JS object modelled as an association list in property order with unique
keys. -/
abbrev Agents := List (String × AgentConfig)

/-- JS property access `agents[k]`. -/
def lookupAgent (agents : Agents) (k : String) : Option AgentConfig :=
  (agents.find? (fun p => p.1 = k)).map (fun p => p.2)

/-- `detectMultipleTeams` (queue processor): collect every `@slug` token
whose lower-cased slug is a configured agent id, duplicates included. -/
def detectMultipleTeams (message : String) (agents : Agents) :
    List String :=
  (mentionSlugs message.data).filterMap (fun slug =>
    let teamId := lowerStr slug
    if (lookupAgent agents teamId).isSome then some teamId else none)

/-- Decomposition performed by the anchored routing regex
`^@(\S+)\s+([\s\S]*)$`: a leading `@`, a maximal non-empty non-whitespace
slug, at least one whitespace character, and the rest after the greedy
whitespace run. -/
def routeSplit : List Char → Option (List Char × List Char)
  | [] => none
  | c :: rest =>
      if c = '@' then
        let slug := rest.takeWhile (fun ch => !isWs ch)
        let afterSlug := rest.drop slug.length
        if slug.isEmpty then none
        else if afterSlug.isEmpty then none
        else some (slug, afterSlug.dropWhile isWs)
      else none

/-- Apostrophe character, written by code point to keep the embedded
message text byte-identical to the source. -/
def apos : String := String.singleton (Char.ofNat 39)

/-- The multi-team easter-egg reply text built by `parseAgentRouting` in
the queue processor. -/
def easterEggMessage (mentionedTeams : List String) : String :=
  let teamList :=
    String.intercalate ", " (mentionedTeams.map (fun t => "@" ++ t))
  "🚀 **Team-to-Team Collaboration - Coming Soon!**\n\n" ++
  "You mentioned multiple teams: " ++ teamList ++ "\n\n" ++
  "Right now, I can only route to one team at a time. But we" ++ apos ++
  "re working on something cool:\n\n" ++
  "✨ **Multi-Team Coordination** - Teams will be able to collaborate on complex tasks!\n" ++
  "✨ **Smart Routing** - Send instructions to multiple teams at once!\n" ++
  "✨ **Team Handoffs** - One team can delegate to another!\n\n" ++
  "For now, please send separate messages to each team:\n" ++
  String.intercalate "\n"
    (mentionedTeams.map (fun t => "• `@" ++ t ++ " [your message]`")) ++
  "\n\n" ++
  "_Stay tuned for updates! 🎉_"

/-- Result of `parseAgentRouting` in the queue processor. -/
structure Routing where
  agentId : String
  message : String
deriving DecidableEq, Repr

/-- `parseAgentRouting` (queue processor): first the multi-mention check
(two or more `@slug` tokens resolving to agent ids short-circuit to the
`error` pseudo-agent carrying the easter-egg text), then the anchored
`@slug` prefix resolved against agent ids and, failing that, agent display
names (case-insensitively, first configured match); anything else routes
to `default` with the raw text unchanged. -/
def parseAgentRouting (rawMessage : String) (agents : Agents) : Routing :=
  let mentionedTeams := detectMultipleTeams rawMessage agents
  if 1 < mentionedTeams.length then
    { agentId := "error", message := easterEggMessage mentionedTeams }
  else
    match routeSplit rawMessage.data with
    | some (slug, rest) =>
        let candidateId := lowerStr (String.mk slug)
        if (lookupAgent agents candidateId).isSome then
          { agentId := candidateId, message := String.mk rest }
        else
          match agents.find? (fun p => lowerStr p.2.name = candidateId) with
          | some p => { agentId := p.1, message := String.mk rest }
          | none => { agentId := "default", message := rawMessage }
    | none => { agentId := "default", message := rawMessage }

-- ── C5 ──────────────────────────────────────────────────────────────────────

/-- One configured agent for the routing examples. -/
def cfgCoder : AgentConfig :=
  { name := "Coder", provider := "anthropic", model := "sonnet",
    working_directory := "coder" }

/-- Registry holding only `coder`. -/
def agentsC5 : Agents := [("coder", cfgCoder)]

/-- Counterexample to C5: `"@coder hi @coder"` starts with `@coder`
followed by whitespace and the rest `"hi @coder"`, and `coder` is a
configured agent id — yet `parseAgentRouting` does not return
`(coder, "hi @coder")`: the two `@coder` tokens trip the multi-mention
check first and the result is the `error` pseudo-agent. -/
theorem parseAgentRouting_multi_mention_cex :
    parseAgentRouting "@coder hi @coder" agentsC5 ≠
      { agentId := "coder", message := "hi @coder" }
    ∧ (parseAgentRouting "@coder hi @coder" agentsC5).agentId = "error" := by
  have he : (parseAgentRouting "@coder hi @coder" agentsC5).agentId =
      "error" := by rfl
  refine ⟨?_, he⟩
  intro h
  rw [h] at he
  exact absurd he (by decide)

theorem takeWhile_append_all {p : Char → Bool} (a b : List Char)
    (h : ∀ c ∈ a, p c = true) :
    (a ++ b).takeWhile p = a ++ b.takeWhile p := by
  induction a with
  | nil => rfl
  | cons x xs ih =>
      rw [List.cons_append, List.takeWhile_cons,
          if_pos (h x (List.mem_cons_self x xs)), List.cons_append,
          ih (fun c hc => h c (List.mem_cons_of_mem x hc))]

theorem dropWhile_append_all {p : Char → Bool} (a b : List Char)
    (h : ∀ c ∈ a, p c = true) :
    (a ++ b).dropWhile p = b.dropWhile p := by
  induction a with
  | nil => rfl
  | cons x xs ih =>
      rw [List.cons_append, List.dropWhile_cons,
          if_pos (h x (List.mem_cons_self x xs)),
          ih (fun c hc => h c (List.mem_cons_of_mem x hc))]

theorem takeWhile_head_neg {p : Char → Bool} (b : List Char)
    (h : ∀ c, b.head? = some c → p c = false) :
    b.takeWhile p = [] := by
  cases b with
  | nil => rfl
  | cons x xs => rw [List.takeWhile_cons, if_neg (by simp [h x rfl])]

theorem dropWhile_head_neg {p : Char → Bool} (b : List Char)
    (h : ∀ c, b.head? = some c → p c = false) :
    b.dropWhile p = b := by
  cases b with
  | nil => rfl
  | cons x xs => rw [List.dropWhile_cons, if_neg (by simp [h x rfl])]

/-- On a message of the shape `@slug` + whitespace run + rest, `routeSplit`
recovers exactly the slug and the rest. -/
theorem routeSplit_decomp (slug w rest : List Char)
    (hs : slug ≠ []) (hsw : ∀ c ∈ slug, isWs c = false)
    (hw : w ≠ []) (hww : ∀ c ∈ w, isWs c = true)
    (hr : ∀ c, rest.head? = some c → isWs c = false) :
    routeSplit ('@' :: (slug ++ (w ++ rest))) = some (slug, rest) := by
  have hslugE : slug.isEmpty = false := by
    cases slug with
    | nil => exact absurd rfl hs
    | cons x xs => rfl
  have htake : (slug ++ (w ++ rest)).takeWhile (fun ch => !isWs ch)
      = slug := by
    rw [takeWhile_append_all _ _ (fun c hc => by simp [hsw c hc])]
    have h0 : (w ++ rest).takeWhile (fun ch => !isWs ch) = [] := by
      apply takeWhile_head_neg
      intro c hc
      cases w with
      | nil => exact absurd rfl hw
      | cons x xs =>
          simp only [List.cons_append, List.head?_cons,
            Option.some.injEq] at hc
          subst hc
          simp [hww x (List.mem_cons_self x xs)]
    rw [h0, List.append_nil]
  have hdrop : (slug ++ (w ++ rest)).drop slug.length = w ++ rest :=
    List.drop_left slug (w ++ rest)
  have hafterE : (w ++ rest).isEmpty = false := by
    cases w with
    | nil => exact absurd rfl hw
    | cons x xs => rfl
  have hdw : (w ++ rest).dropWhile isWs = rest := by
    rw [dropWhile_append_all _ _ hww, dropWhile_head_neg _ hr]
  simp only [routeSplit, htake, hdrop, hslugE, hafterE, hdw,
    Bool.false_eq_true, if_false, reduceIte]

/-- Amended C5.  Provided the raw text does not contain two or more
`@slug` tokens resolving to configured agent ids (the multi-mention
short-circuit of the counterexample), a raw text of the shape
`@slug` + whitespace + rest routes to the agent whose id equals the
case-folded slug, or failing that to the first agent whose display name
matches it case-insensitively, with the message being exactly the rest
after the whitespace run; every other input routes to `default` with the
raw text unmodified. -/
theorem parseAgentRouting_spec (raw : String) (agents : Agents)
    (hmulti : (detectMultipleTeams raw agents).length ≤ 1) :
    (∀ slug w rest : List Char,
       raw.data = '@' :: (slug ++ (w ++ rest)) →
       slug ≠ [] → (∀ c ∈ slug, isWs c = false) →
       w ≠ [] → (∀ c ∈ w, isWs c = true) →
       (∀ c, rest.head? = some c → isWs c = false) →
       (((lookupAgent agents (lowerStr (String.mk slug))).isSome = true →
           parseAgentRouting raw agents =
             { agentId := lowerStr (String.mk slug),
               message := String.mk rest })
        ∧ (lookupAgent agents (lowerStr (String.mk slug)) = none →
           ∀ p, agents.find?
               (fun q => lowerStr q.2.name = lowerStr (String.mk slug)) =
                 some p →
             parseAgentRouting raw agents =
               { agentId := p.1, message := String.mk rest })
        ∧ (lookupAgent agents (lowerStr (String.mk slug)) = none →
           agents.find?
               (fun q => lowerStr q.2.name = lowerStr (String.mk slug)) =
                 none →
             parseAgentRouting raw agents =
               { agentId := "default", message := raw })))
    ∧ (routeSplit raw.data = none →
        parseAgentRouting raw agents =
          { agentId := "default", message := raw }) := by
  have hnm : ¬ 1 < (detectMultipleTeams raw agents).length := by omega
  constructor
  · intro slug w rest hdecomp hs hsw hw hww hr
    have hsplit : routeSplit raw.data = some (slug, rest) := by
      rw [hdecomp]
      exact routeSplit_decomp slug w rest hs hsw hw hww hr
    refine ⟨?_, ?_, ?_⟩
    · intro hid
      simp only [parseAgentRouting, if_neg hnm, hsplit, hid, if_true]
    · intro hid p hname
      simp only [parseAgentRouting, if_neg hnm, hsplit, hid, hname,
        Option.isSome_none, Bool.false_eq_true, if_false]
    · intro hid hname
      simp only [parseAgentRouting, if_neg hnm, hsplit, hid, hname,
        Option.isSome_none, Bool.false_eq_true, if_false]
  · intro hsplit
    simp only [parseAgentRouting, if_neg hnm, hsplit]

/-- Witness for the amended C5: `"@coder fix the login bug"` routes to
`coder` with the stripped prompt `"fix the login bug"` (spec scenario
S2). -/
theorem parseAgentRouting_spec_witness :
    (detectMultipleTeams "@coder fix the login bug" agentsC5).length ≤ 1
    ∧ parseAgentRouting "@coder fix the login bug" agentsC5 =
        { agentId := "coder", message := "fix the login bug" } := by
  refine ⟨by decide, ?_⟩
  have h := ((parseAgentRouting_spec "@coder fix the login bug" agentsC5
      (by decide)).1
    "coder".data " ".data "fix the login bug".data
    (by decide) (by decide) (by decide) (by decide) (by decide)
    (by decide)).1 (by decide)
  rw [h]
  decide

-- ── C6: team-aware routing and the SQLite dispatcher ────────────────────────

/-- Team configuration (interface `TeamConfig`). -/
structure TeamConfig where
  name : String
  agents : List String
  leader_agent : String
deriving DecidableEq, Repr

/-- The teams registry as an association list in property order. -/
abbrev Teams := List (String × TeamConfig)

/-- JS property access `teams[k]`. -/
def lookupTeam (teams : Teams) (k : String) : Option TeamConfig :=
  (teams.find? (fun p => p.1 = k)).map (fun p => p.2)

/-- Kind tag of a routing resolution (spec section 4.2). -/
inductive RoutingKind
  | direct_agent
  | team_leader
  | error_multi
deriving DecidableEq, Repr

/-- Tagged routing resolution of the team-aware resolver. -/
structure RoutingResult where
  agentId : String
  message : String
  kind : RoutingKind
deriving DecidableEq, Repr

/-- Modelled from the spec: the team-aware resolver of `lib/routing.ts` is
not under `src/` (only its caller, the SQLite queue processor, is).  Spec
section 4.2 step 1: collect all `@slug` tokens and keep the ones matching
known agent ids or team ids. -/
def specMentionTargets (raw : String) (agents : Agents) (teams : Teams) :
    List String :=
  (mentionSlugs raw.data).filterMap (fun slug =>
    let s := lowerStr slug
    if (lookupAgent agents s).isSome || (lookupTeam teams s).isSome then
      some s
    else none)

/-- Modelled from the spec: the human-readable multi-target explainer that
lists the mentioned targets and asks for separate messages (spec section
4.2 step 1; exact wording is not in `src/`). -/
def multiTargetMessage (targets : List String) : String :=
  "You mentioned multiple targets: " ++
    String.intercalate ", " (targets.map (fun t => "@" ++ t)) ++
    ". Please send a separate message to each target."

/-- Modelled from the spec: `parseAgentRouting` of `lib/routing.ts` (spec
section 4.2).  Two or more resolving mention targets yield `error_multi`;
otherwise a leading `@slug` resolves against agent ids, then agent display
names, then team ids (routing to the team's leader); otherwise `default`
with the raw text.  The `error_multi` outcome carries agent id `"error"`,
the encoding the repository's legacy processor uses for this outcome. -/
def parseAgentRoutingSpec (raw : String) (agents : Agents) (teams : Teams) :
    RoutingResult :=
  let targets := specMentionTargets raw agents teams
  if 1 < targets.length then
    { agentId := "error", message := multiTargetMessage targets,
      kind := .error_multi }
  else
    match routeSplit raw.data with
    | some (slug, rest) =>
        let cand := lowerStr (String.mk slug)
        if (lookupAgent agents cand).isSome then
          { agentId := cand, message := String.mk rest,
            kind := .direct_agent }
        else
          match agents.find? (fun p => lowerStr p.2.name = cand) with
          | some p =>
              { agentId := p.1, message := String.mk rest,
                kind := .direct_agent }
          | none =>
              match lookupTeam teams cand with
              | some tm =>
                  { agentId := tm.leader_agent, message := String.mk rest,
                    kind := .team_leader }
              | none =>
                  { agentId := "default", message := raw,
                    kind := .direct_agent }
    | none => { agentId := "default", message := raw, kind := .direct_agent }

/-- Routing block of the SQLite queue processor's `processMessage`: take
the pre-routed agent when it is configured, otherwise run the resolver;
then fall back to `default` with the raw text when the resolved id is not
a configured agent, and to the first configured agent when `default` is
not configured either.  Note that the block has no branch for the
`error_multi` outcome. -/
def routeForProcessing (preRouted : Option String) (raw : String)
    (agents : Agents) (teams : Teams) : String × String :=
  let first :=
    match preRouted with
    | some a =>
        if (lookupAgent agents a).isSome then (a, raw)
        else
          let r := parseAgentRoutingSpec raw agents teams
          (r.agentId, r.message)
    | none =>
        let r := parseAgentRoutingSpec raw agents teams
        (r.agentId, r.message)
  let second :=
    if (lookupAgent agents first.1).isSome then first else ("default", raw)
  if (lookupAgent agents second.1).isSome then second
  else
    match agents.head? with
    | some p => (p.1, second.2)
    | none => second

/-- The `default` agent for the C6 scenario. -/
def cfgDefault : AgentConfig :=
  { name := "Default", provider := "anthropic", model := "sonnet",
    working_directory := "default" }

/-- The `writer` agent for the C6 scenario. -/
def cfgWriter : AgentConfig :=
  { name := "Writer", provider := "anthropic", model := "sonnet",
    working_directory := "writer" }

/-- Registry with `default`, `coder` and `writer` configured. -/
def agentsC6 : Agents :=
  [("default", cfgDefault), ("coder", cfgCoder), ("writer", cfgWriter)]

/-- C6 at the failing input (spec scenario S3).  The resolver flags the
message `"@coder @writer please coordinate"` as `error_multi`, but the
dispatcher's routing block — which has no branch for that outcome — maps
the unconfigured pseudo-agent `"error"` to `("default", raw text)`: the
default agent is invoked on the raw message and no short-circuiting
multi-target response is produced. -/
theorem multi_target_not_short_circuited :
    (parseAgentRoutingSpec "@coder @writer please coordinate" agentsC6
        []).kind = RoutingKind.error_multi
    ∧ routeForProcessing none "@coder @writer please coordinate" agentsC6
        [] = ("default", "@coder @writer please coordinate") := by
  exact ⟨rfl, by decide⟩

-- ── C7: runCommand failure and the dispatcher's catch ───────────────────────

/-- The `close` handler of `runCommand` (`lib/invoke.ts`): exit code 0
resolves with stdout; a non-zero exit rejects with the trimmed stderr, or
with `"Command exited with code N"` when the trimmed stderr is empty
(JS `stderr.trim() || ...`). -/
def runCommandExit (code : Int) (stdout stderr : String) :
    Except String String :=
  if code = 0 then Except.ok stdout
  else
    Except.error
      (if trimStr stderr ≠ "" then trimStr stderr
       else "Command exited with code " ++ toString code)

/-- The fixed user-facing apology string of the dispatcher's catch block
(`processMessage` in the SQLite queue processor). -/
def apologyResponse : String :=
  "Sorry, I encountered an error processing your request. Please check the queue logs."

/-- The dispatcher's invocation wrapper: a successful invocation yields its
response text; any invocation error is caught (and logged) and replaced by
the apology string — processing continues either way. -/
def dispatchResponse (inv : Except String String) : String :=
  match inv with
  | .ok s => s
  | .error _ => apologyResponse

/-- The claim-of-C7 theorem.  A non-zero exit makes `runCommand` reject
with the trimmed stderr (or the generic `"Command exited with code N"`
when it trims to empty); the dispatcher substitutes the apology string for
the response, and the message row is still marked completed —
`completeMessage`, not `failMessage`, runs on it. -/
theorem runCommand_failure_spec (code : Int) (stdout stderr : String)
    (h : code ≠ 0) :
    runCommandExit code stdout stderr =
      Except.error
        (if trimStr stderr = "" then
           "Command exited with code " ++ toString code
         else trimStr stderr)
    ∧ dispatchResponse (runCommandExit code stdout stderr) =
        apologyResponse
    ∧ (∀ (t : MsgTable) (i : Nat) (now : Int),
        ∀ r ∈ completeMessage i now t, r.id = i →
          r.status = MsgStatus.completed ∧ r.updated_at = now) := by
  have h1 : runCommandExit code stdout stderr =
      Except.error
        (if trimStr stderr = "" then
           "Command exited with code " ++ toString code
         else trimStr stderr) := by
    unfold runCommandExit
    rw [if_neg h]
    by_cases hs : trimStr stderr = ""
    · rw [if_pos hs, if_neg (by simp [hs])]
    · rw [if_neg hs, if_pos hs]
  refine ⟨h1, ?_, ?_⟩
  · rw [h1]
    rfl
  · intro t i now r hr hid
    unfold completeMessage at hr
    rcases mem_updateRow hr with ⟨r0, _, _, heq⟩ | ⟨_, hne⟩
    · subst heq
      exact ⟨rfl, rfl⟩
    · exact absurd hid hne

/-- Witness for C7: exit code 1 with stderr `" boom\n"` rejects with
`"boom"`; with whitespace-only stderr it rejects with the generic text;
either way the dispatcher answers with the apology. -/
theorem runCommand_failure_spec_witness :
    runCommandExit 1 "" " boom\n" = Except.error "boom"
    ∧ runCommandExit 1 "" "  \n" =
        Except.error "Command exited with code 1"
    ∧ dispatchResponse (runCommandExit 1 "" " boom\n") = apologyResponse := by
  have h1 := runCommand_failure_spec 1 "" " boom\n" (by decide)
  have h2 := runCommand_failure_spec 1 "" "  \n" (by decide)
  refine ⟨?_, ?_, h1.2.1⟩
  · rw [h1.1, show trimStr " boom\n" = "boom" from by decide,
        if_neg (by decide)]
  · rw [h2.1, show trimStr "  \n" = "" from by decide, if_pos rfl]
    congr 1

-- ── C8: plugin hook pipeline (src/lib/plugins.ts) ───────────────────────────

/-- Plugin hook metadata: a JS object modelled as an association list in
property order. -/
abbrev Metadata := List (String × String)

/-- JS object spread `{...a, ...b}`: keys of `a` in order with values
overridden by `b` on conflict, followed by the keys only in `b`. -/
def mergeMeta (a b : Metadata) : Metadata :=
  a.map (fun p =>
    match b.find? (fun q => q.1 = p.1) with
    | some q => (p.1, q.2)
    | none => p) ++
  b.filter (fun q => (a.find? (fun p => p.1 = q.1)).isNone)

/-- JS object property read on the metadata map. -/
def lookupMeta (m : Metadata) (k : String) : Option String :=
  (m.find? (fun p => p.1 = k)).map (fun p => p.2)

/-- What one `transformOutgoing` / `transformIncoming` call can do with
the current text (the hook context is fixed per message): return a plain
string, return a `{text, metadata}` object, or throw. -/
inductive HookRes
  | str (t : String)
  | obj (t : String) (m : Metadata)
  | thrown (e : String)

/-- A loaded plugin transform specialised to the fixed hook context. -/
abbrev Hook := String → HookRes

/-- One iteration of the loop in `runOutgoingHooks` / `runIncomingHooks`:
a plain string replaces the text; an object replaces the text and spreads
its metadata over the accumulator; a throw is caught and logged, leaving
text and metadata exactly as they were. -/
def hookStep (st : String × Metadata) (h : Hook) : String × Metadata :=
  match h st.1 with
  | .str t => (t, st.2)
  | .obj t m => (t, mergeMeta st.2 m)
  | .thrown _ => st

/-- The hook loop from an arbitrary intermediate state. -/
def runHooksFrom (hooks : List Hook) (t : String) (m : Metadata) :
    String × Metadata :=
  hooks.foldl hookStep (t, m)

/-- `runOutgoingHooks` / `runIncomingHooks` (`plugins.ts`): fold the loaded
transforms over the message, starting from empty metadata; the function is
total — a throwing transform never fails the carrying message. -/
def runHooks (hooks : List Hook) (message : String) : String × Metadata :=
  runHooksFrom hooks message []

/-- The text one transform contributes: its output text when it returns,
the unchanged input when it throws. -/
def cleanText (r : HookRes) (t : String) : String :=
  match r with
  | .str s => s
  | .obj s _ => s
  | .thrown _ => t

/-- The composition of the non-throwing transforms, applied in order: what
the final text must be if each transform sees the previous output and
throwing transforms are skipped. -/
def applyClean : List Hook → String → String
  | [], t => t
  | h :: hs, t => applyClean hs (cleanText (h t) t)

theorem find?_map_key (a : Metadata)
    (f : String × String → String × String)
    (hf : ∀ p, (f p).1 = p.1) (k : String) :
    (a.map f).find? (fun p => p.1 = k) =
      (a.find? (fun p => p.1 = k)).map f := by
  induction a with
  | nil => rfl
  | cons x xs ih =>
      simp only [List.map_cons, List.find?_cons]
      by_cases hx : x.1 = k
      · simp [hx, hf x]
      · simp [hx, hf x, ih]

theorem find?_filter_eq (l : Metadata) (p g : String × String → Bool)
    (h : ∀ x, p x = true → g x = true) :
    (l.filter g).find? p = l.find? p := by
  induction l with
  | nil => rfl
  | cons x xs ih =>
      by_cases hg : g x = true
      · rw [List.filter_cons_of_pos hg]
        by_cases hp : p x = true
        · rw [List.find?_cons_of_pos _ hp, List.find?_cons_of_pos _ hp]
        · rw [List.find?_cons_of_neg _ (by simpa using hp),
              List.find?_cons_of_neg _ (by simpa using hp)]
          exact ih
      · rw [List.filter_cons_of_neg (by simpa using hg)]
        have hp : p x = false := by
          by_contra hc
          exact hg (h x (by simpa using hc))
        rw [ih, List.find?_cons_of_neg _ (by simp [hp])]

theorem lookupMeta_mergeMeta (a b : Metadata) (k : String) :
    lookupMeta (mergeMeta a b) k =
      (lookupMeta b k).or (lookupMeta a k) := by
  unfold lookupMeta mergeMeta
  rw [List.find?_append]
  rw [find?_map_key a _
    (fun p => by cases hb : b.find? (fun q => q.1 = p.1) <;> simp [hb]) k]
  cases hA : a.find? (fun p => p.1 = k) with
  | none =>
      rw [find?_filter_eq _ _ _ (fun x hx => by
        have hxk : x.1 = k := by simpa using hx
        rw [hxk, hA]
        rfl)]
      cases hB : b.find? (fun q => q.1 = k) <;> simp [hB]
  | some pa =>
      have hkey : pa.1 = k := by simpa using List.find?_some hA
      cases hB : b.find? (fun q => q.1 = k) with
      | none => simp [hkey, hB]
      | some qb => simp [hkey, hB]

theorem runHooksFrom_fst (hooks : List Hook) :
    ∀ (t : String) (m : Metadata),
      (runHooksFrom hooks t m).1 = applyClean hooks t := by
  induction hooks with
  | nil =>
      intro t m
      rfl
  | cons h hs ih =>
      intro t m
      have h2 : applyClean (h :: hs) t =
          applyClean hs (cleanText (h t) t) := by
        simp [applyClean]
      have h3 : runHooksFrom (h :: hs) t m =
          runHooksFrom hs (hookStep (t, m) h).1 (hookStep (t, m) h).2 := by
        unfold runHooksFrom
        rw [List.foldl_cons]
      have h4 : (hookStep (t, m) h).1 = cleanText (h t) t := by
        cases hht : h t <;> simp [hookStep, cleanText, hht]
      rw [h3, h2, h4, ih]

/-- The claim-of-C8 theorem.  In the hook pipeline: a transform returning
a string or an object hands its output text to the remaining transforms;
an object's metadata is spread over the accumulated metadata, right-biased
on key conflict (`lookupMeta` of the merge prefers the later object); a
transform that throws is skipped, leaving text and metadata exactly as
they were before it; and the resulting text is the in-order composition of
the non-throwing transforms — a throwing hook never fails the carrying
message (the pipeline is a total function). -/
theorem hook_pipeline_spec :
    (∀ (hooks : List Hook) (e : String → String) (t : String)
        (m : Metadata),
       runHooksFrom ((fun s => HookRes.thrown (e s)) :: hooks) t m =
         runHooksFrom hooks t m)
    ∧ (∀ (hooks : List Hook) (f : String → String) (t : String)
        (m : Metadata),
       runHooksFrom ((fun s => HookRes.str (f s)) :: hooks) t m =
         runHooksFrom hooks (f t) m)
    ∧ (∀ (hooks : List Hook) (f : String → String)
        (g : String → Metadata) (t : String) (m : Metadata),
       runHooksFrom ((fun s => HookRes.obj (f s) (g s)) :: hooks) t m =
         runHooksFrom hooks (f t) (mergeMeta m (g t)))
    ∧ (∀ (a b : Metadata) (k : String),
       lookupMeta (mergeMeta a b) k = (lookupMeta b k).or (lookupMeta a k))
    ∧ (∀ (hooks : List Hook) (t : String),
       (runHooks hooks t).1 = applyClean hooks t) :=
  ⟨fun _ _ _ _ => rfl, fun _ _ _ _ => rfl, fun _ _ _ _ _ => rfl,
   lookupMeta_mergeMeta, fun hooks t => runHooksFrom_fst hooks t []⟩

-- ── C9: conversation cap in the team branch of processMessage ───────────────

/-- In-memory conversation state: the fields of the dispatcher's
`Conversation` record that the cap logic reads and writes. -/
structure ConvState where
  pending : Nat
  totalMessages : Nat
  maxMessages : Nat
  responses : List (String × String)
deriving DecidableEq, Repr

/-- Modelled from the spec: `lib/conversation.ts` is not under `src/`.
Default conversation cap (spec: conversation-max-messages = 20). -/
def MAX_CONVERSATION_MESSAGES : Nat := 20

/-- Modelled from the spec: `incrementPending` adds `n` pending
branches. -/
def incrementPending (c : ConvState) (n : Nat) : ConvState :=
  { c with pending := c.pending + n }

/-- Modelled from the spec: `decrementPending` subtracts one branch and
reports whether the conversation has quiesced (pending reached zero). -/
def decrementPending (c : ConvState) : ConvState × Bool :=
  ({ c with pending := c.pending - 1 }, c.pending - 1 == 0)

/-- Outcome of one team-context step: the updated conversation, the
internal follow-up messages enqueued (teammate id and text), and whether
the conversation completed. -/
structure TeamStepResult where
  conv : ConvState
  enqueued : List (String × String)
  completed : Bool
deriving DecidableEq, Repr

/-- Team-context tail of `processMessage` in the SQLite queue processor:
append the step response and bump the total-messages counter; if there are
teammate mentions and the bumped counter is still below the cap, enqueue
one internal message per mention and add that many pending branches;
mentions at or past the cap are ignored with a warning; finally decrement
the pending count for the finished branch and complete the conversation
when it reaches zero. -/
def teamStep (conv : ConvState) (agentId response : String)
    (mentions : List (String × String)) : TeamStepResult :=
  let conv1 := { conv with
    responses := conv.responses ++ [(agentId, response)],
    totalMessages := conv.totalMessages + 1 }
  let step2 :=
    if 0 < mentions.length ∧ conv1.totalMessages < conv1.maxMessages then
      (incrementPending conv1 mentions.length,
       mentions.map (fun m =>
         (m.1, "[Message from teammate @" ++ agentId ++ "]:\n" ++ m.2)))
    else (conv1, [])
  let step3 := decrementPending step2.1
  { conv := step3.1, enqueued := step2.2, completed := step3.2 }

/-- The claim-of-C9 theorem.  When an agent's response carries teammate
mentions but the conversation's total-messages counter has already
reached its cap, the step enqueues no internal follow-up and does not
increment the pending branch counter (the mentions are ignored); the
branch decrement still runs, so the step reports completion exactly when
the pending count reaches zero; the default cap is 20. -/
theorem conversation_cap_spec (conv : ConvState)
    (agentId response : String) (mentions : List (String × String))
    (hm : mentions ≠ []) (hcap : conv.maxMessages ≤ conv.totalMessages) :
    (teamStep conv agentId response mentions).enqueued = []
    ∧ (teamStep conv agentId response mentions).conv.pending =
        conv.pending - 1
    ∧ ((teamStep conv agentId response mentions).completed = true ↔
        conv.pending - 1 = 0)
    ∧ MAX_CONVERSATION_MESSAGES = 20 := by
  have hnc : ¬ (0 < mentions.length ∧
      conv.totalMessages + 1 < conv.maxMessages) := by
    rintro ⟨-, hlt⟩
    omega
  refine ⟨?_, ?_, ?_, rfl⟩ <;>
    simp [teamStep, decrementPending, incrementPending, hnc]

/-- Witness for C9: a one-branch conversation whose counter sits at the
cap ignores the mention, enqueues nothing and completes. -/
theorem conversation_cap_spec_witness :
    (teamStep
        { pending := 1, totalMessages := 20, maxMessages := 20,
          responses := [] } "coder" "done @reviewer"
        [("reviewer", "please check")]).enqueued = []
    ∧ (teamStep
        { pending := 1, totalMessages := 20, maxMessages := 20,
          responses := [] } "coder" "done @reviewer"
        [("reviewer", "please check")]).completed = true := by
  have h := conversation_cap_spec
    { pending := 1, totalMessages := 20, maxMessages := 20,
      responses := [] } "coder" "done @reviewer"
    [("reviewer", "please check")] (by decide) (by decide)
  exact ⟨h.1, h.2.2.1.mpr (by decide)⟩

end Tinyclaw
